import Mathlib

/-!
# Verification of the electrostatics core (`src/utils/physics.ts`)

A shallow embedding of the field/potential/force evaluator and the
per-step dynamics integrator, with theorems settling the specification
claims about it.  Machine floats are modelled by real numbers; the
three.js `Vector3` operations used by the code are embedded faithfully
(including `normalize`, which divides by `length() || 1`).
-/

set_option maxHeartbeats 1000000

noncomputable section

namespace Elec

/-- three.js `Vector3` as used by the physics module: a 3-component real vector.
(Named inside the `Elec` namespace because Mathlib already has a `Vector3`.) -/
@[ext]
structure Vector3 where
  x : ℝ
  y : ℝ
  z : ℝ

namespace Vector3

instance : Zero Vector3 := ⟨⟨0, 0, 0⟩⟩

instance : Add Vector3 := ⟨fun a b => ⟨a.x + b.x, a.y + b.y, a.z + b.z⟩⟩

instance : Sub Vector3 := ⟨fun a b => ⟨a.x - b.x, a.y - b.y, a.z - b.z⟩⟩

@[simp] theorem zero_x : (0 : Vector3).x = 0 := rfl

@[simp] theorem zero_y : (0 : Vector3).y = 0 := rfl

@[simp] theorem zero_z : (0 : Vector3).z = 0 := rfl

@[simp] theorem add_x (a b : Vector3) : (a + b).x = a.x + b.x := rfl

@[simp] theorem add_y (a b : Vector3) : (a + b).y = a.y + b.y := rfl

@[simp] theorem add_z (a b : Vector3) : (a + b).z = a.z + b.z := rfl

@[simp] theorem sub_x (a b : Vector3) : (a - b).x = a.x - b.x := rfl

@[simp] theorem sub_y (a b : Vector3) : (a - b).y = a.y - b.y := rfl

@[simp] theorem sub_z (a b : Vector3) : (a - b).z = a.z - b.z := rfl

instance : AddCommMonoid Vector3 where
  add_assoc a b c := by ext <;> simp <;> ring
  zero_add a := by ext <;> simp
  add_zero a := by ext <;> simp
  add_comm a b := by ext <;> simp <;> ring
  nsmul := nsmulRec

/-- three.js `multiplyScalar`. -/
def multiplyScalar (v : Vector3) (s : ℝ) : Vector3 := ⟨v.x * s, v.y * s, v.z * s⟩

/-- three.js `divideScalar`, defined there as `multiplyScalar(1 / scalar)`. -/
def divideScalar (v : Vector3) (s : ℝ) : Vector3 := v.multiplyScalar (1 / s)

/-- three.js `length`: Euclidean norm. -/
def length (v : Vector3) : ℝ := Real.sqrt (v.x * v.x + v.y * v.y + v.z * v.z)

/-- three.js `normalize`, defined there as `divideScalar(length() || 1)`. -/
def normalize (v : Vector3) : Vector3 :=
  v.divideScalar (if v.length = 0 then 1 else v.length)

/-- three.js `distanceTo`. -/
def distanceTo (a b : Vector3) : ℝ := (a - b).length

@[simp] theorem multiplyScalar_x (v : Vector3) (s : ℝ) : (v.multiplyScalar s).x = v.x * s := rfl

@[simp] theorem multiplyScalar_y (v : Vector3) (s : ℝ) : (v.multiplyScalar s).y = v.y * s := rfl

@[simp] theorem multiplyScalar_z (v : Vector3) (s : ℝ) : (v.multiplyScalar s).z = v.z * s := rfl

/-- Component projection `x` as an additive monoid homomorphism. -/
def xHom : Vector3 →+ ℝ := ⟨⟨Vector3.x, rfl⟩, fun _ _ => rfl⟩

/-- Component projection `y` as an additive monoid homomorphism. -/
def yHom : Vector3 →+ ℝ := ⟨⟨Vector3.y, rfl⟩, fun _ _ => rfl⟩

/-- Component projection `z` as an additive monoid homomorphism. -/
def zHom : Vector3 →+ ℝ := ⟨⟨Vector3.z, rfl⟩, fun _ _ => rfl⟩

theorem sum_x {ι : Type} (s : Finset ι) (f : ι → Vector3) :
    (s.sum f).x = s.sum fun i => (f i).x :=
  map_sum xHom f s

theorem sum_y {ι : Type} (s : Finset ι) (f : ι → Vector3) :
    (s.sum f).y = s.sum fun i => (f i).y :=
  map_sum yHom f s

theorem sum_z {ι : Type} (s : Finset ι) (f : ι → Vector3) :
    (s.sum f).z = s.sum fun i => (f i).z :=
  map_sum zHom f s

theorem length_mk_x (a : ℝ) : length ⟨a, 0, 0⟩ = |a| := by
  show Real.sqrt (a * a + 0 * 0 + 0 * 0) = |a|
  rw [show a * a + 0 * 0 + 0 * 0 = a ^ 2 by ring, Real.sqrt_sq_eq_abs]

theorem length_mk_y (a : ℝ) : length ⟨0, a, 0⟩ = |a| := by
  show Real.sqrt (0 * 0 + a * a + 0 * 0) = |a|
  rw [show 0 * 0 + a * a + 0 * 0 = a ^ 2 by ring, Real.sqrt_sq_eq_abs]

theorem length_nonneg (v : Vector3) : 0 ≤ v.length := Real.sqrt_nonneg _

end Vector3

/-- The four source geometries (`ChargeType` in `src/types.ts`). -/
inductive ChargeType
  | POINT
  | RING
  | SPHERE_CONDUCTING
  | SPHERE_NON_CONDUCTING
deriving DecidableEq

/-- A charged body (`ChargeObject` in `src/types.ts`).  Optional fields of the
TypeScript interface are `Option`s here. -/
structure ChargeObject where
  id : String
  type : ChargeType
  position : Vector3
  q : ℝ
  radius : ℝ
  mass : Option ℝ := none
  velocity : Option Vector3 := none
  isFixed : Bool := false

/-- Result record of the vector-valued evaluators (`VectorResult` in `src/types.ts`). -/
structure VectorResult where
  vector : Vector3
  magnitude : ℝ

/-- The Point-law field term `(k·q/d²)·r̂` shared by the `POINT` case and the
outside branches of both sphere cases of `getFieldFromObject`. -/
def pointField (rVec : Vector3) (k q : ℝ) : Vector3 :=
  rVec.normalize.multiplyScalar ((k * q) / (rVec.length * rVec.length))

/-- Sample angle `theta = (i / SAMPLES) * Math.PI * 2` used by every ring
discretization loop. -/
def sampleTheta (n i : ℕ) : ℝ := ((i : ℝ) / (n : ℝ)) * Real.pi * 2

/-- Position of the `i`-th of `n` ring samples: the ring lies in the XZ plane
through its center. -/
def ringSamplePos (c : ChargeObject) (n i : ℕ) : Vector3 :=
  ⟨c.position.x + Real.cos (sampleTheta n i) * c.radius,
   c.position.y,
   c.position.z + Real.sin (sampleTheta n i) * c.radius⟩

/-- Body of the ring loop in `getFieldFromObject`: a sample contributes its
Point-law term only when `dR > 0.1`. -/
def ringSampleField (k dQ : ℝ) (rSample : Vector3) : Vector3 :=
  if rSample.length > 0.1 then
    rSample.normalize.multiplyScalar ((k * dQ) / (rSample.length * rSample.length))
  else 0

/-- Embedding of `getFieldFromObject` of `src/utils/physics.ts`: field at `position` due to a
single source. -/
def getFieldFromObject (position : Vector3) (charge : ChargeObject) (k : ℝ) : Vector3 :=
  let rVec := position - charge.position
  let dist := rVec.length
  if dist < 0.05 then 0
  else
    match charge.type with
    | ChargeType.POINT => pointField rVec k charge.q
    | ChargeType.SPHERE_CONDUCTING =>
        if dist ≥ charge.radius then pointField rVec k charge.q else 0
    | ChargeType.SPHERE_NON_CONDUCTING =>
        if dist ≥ charge.radius then pointField rVec k charge.q
        else rVec.normalize.multiplyScalar
          ((k * charge.q * dist) / (charge.radius * charge.radius * charge.radius))
    | ChargeType.RING =>
        Finset.sum (Finset.range 40) fun i =>
          ringSampleField k (charge.q / 40) (position - ringSamplePos charge 40 i)

/-- Embedding of `calculateElectricField`: superposed field over all sources, with magnitude. -/
def calculateElectricField (position : Vector3) (charges : List ChargeObject) (k : ℝ) :
    VectorResult :=
  let totalE := charges.foldl (fun acc c => acc + getFieldFromObject position c k) 0
  ⟨totalE, totalE.length⟩

/-- Body of the ring loop in `calculatePotential`: a sample contributes only
when `d > 0.05`. -/
def ringSamplePotential (k dQ d : ℝ) : ℝ := if d > 0.05 then k * dQ / d else 0

/-- Per-source summand of `calculatePotential` (the body of its `forEach`,
which only adds into the accumulator). -/
def potentialFromObject (position : Vector3) (charge : ChargeObject) (k : ℝ) : ℝ :=
  let dist := position.distanceTo charge.position
  if dist < 0.05 then 0
  else
    match charge.type with
    | ChargeType.POINT => k * charge.q / dist
    | ChargeType.SPHERE_CONDUCTING =>
        if dist ≥ charge.radius then k * charge.q / dist
        else k * charge.q / charge.radius
    | ChargeType.SPHERE_NON_CONDUCTING =>
        if dist ≥ charge.radius then k * charge.q / dist
        else k * charge.q / (2 * charge.radius) *
          (3 - dist * dist / (charge.radius * charge.radius))
    | ChargeType.RING =>
        Finset.sum (Finset.range 30) fun i =>
          ringSamplePotential k (charge.q / 30) (position.distanceTo (ringSamplePos charge 30 i))

/-- Embedding of `calculatePotential`: superposed scalar potential over all sources. -/
def calculatePotential (position : Vector3) (charges : List ChargeObject) (k : ℝ) : ℝ :=
  charges.foldl (fun acc c => acc + potentialFromObject position c k) 0

/-- Embedding of `calculateNetForce`: net force on `target` from all charges with a
different `id`; early exact-zero return when no other charge exists. -/
def calculateNetForce (target : ChargeObject) (allCharges : List ChargeObject) (k : ℝ) :
    VectorResult :=
  let otherCharges := allCharges.filter fun c => c.id != target.id
  if otherCharges.length = 0 then ⟨0, 0⟩
  else
    match target.type with
    | ChargeType.POINT | ChargeType.SPHERE_CONDUCTING | ChargeType.SPHERE_NON_CONDUCTING =>
        let eField := calculateElectricField target.position otherCharges k
        let totalForce := eField.vector.multiplyScalar target.q
        ⟨totalForce, totalForce.length⟩
    | ChargeType.RING =>
        let totalForce := Finset.sum (Finset.range 20) fun i =>
          (calculateElectricField (ringSamplePos target 20 i) otherCharges k).vector.multiplyScalar
            (target.q / 20)
        ⟨totalForce, totalForce.length⟩

/-- Embedding of `snapToGrid`: each coordinate is `Math.round(coord / step) * step`;
JavaScript `Math.round` (round half towards `+∞`) is Mathlib's `round`. -/
def snapToGrid (position : Vector3) (step : ℝ) : Vector3 :=
  ⟨(round (position.x / step) : ℤ) * step,
   (round (position.y / step) : ℤ) * step,
   (round (position.z / step) : ℤ) * step⟩

/-- The mass actually used by the integrator: `c.mass || 1.0`, so an absent
mass and a mass of exactly `0` both fall back to `1.0`. -/
def effectiveMass : Option ℝ → ℝ
  | none => 1
  | some m => if m = 0 then 1 else m

/-- Body of the integration `map` of `updateChargeDynamics` for one charge and
its precomputed force. -/
def integrateCharge (c : ChargeObject) (force : Vector3) (dt damping : ℝ) : ChargeObject :=
  if c.isFixed then c
  else
    let mass := effectiveMass c.mass
    let acceleration := force.divideScalar mass
    let oldVelocity := c.velocity.getD 0
    let newVelocity := (oldVelocity + acceleration.multiplyScalar dt).multiplyScalar damping
    let newPosition := c.position + newVelocity.multiplyScalar dt
    { c with velocity := some newVelocity, position := newPosition }

/-- Embedding of `updateChargeDynamics`: the source first maps `charges` to a force array
(zero force for fixed charges) computed from the pre-step collection, then maps
`charges` with the index-aligned force; the two index-aligned maps are fused
into one here. -/
def updateChargeDynamics (charges : List ChargeObject) (dt k : ℝ) (damping : ℝ) :
    List ChargeObject :=
  charges.map fun c =>
    integrateCharge c (if c.isFixed then 0 else (calculateNetForce c charges k).vector) dt damping

/-! ## Concrete charge objects used by witnesses and counterexamples -/

/-- A free (non-fixed) point charge at the origin. -/
def cFree : ChargeObject := ⟨"c1", ChargeType.POINT, 0, 1, 0.2, none, none, false⟩

/-- A pinned point charge at the origin. -/
def cFixed : ChargeObject := ⟨"c0", ChargeType.POINT, 0, 1, 0.2, none, none, true⟩

/-- A free point charge carrying a negative mass. -/
def cMass : ChargeObject := ⟨"cm", ChargeType.POINT, 0, 1, 0.2, some (-2), none, false⟩

/-! ## Helper lemmas -/

theorem foldl_add_eq_sum {α M : Type} [AddCommMonoid M] (f : α → M) (l : List α) (init : M) :
    l.foldl (fun acc c => acc + f c) init = init + (l.map f).sum := by
  induction l generalizing init with
  | nil => simp
  | cons a t ih => simp [ih, add_assoc]

theorem round_mul_sub_abs_le (step a : ℝ) (h : 0 < step) :
    |((round (a / step) : ℤ) : ℝ) * step - a| ≤ step / 2 := by
  have hne : step ≠ 0 := ne_of_gt h
  have h1 : ((round (a / step) : ℤ) : ℝ) * step - a
      = (((round (a / step) : ℤ) : ℝ) - a / step) * step := by
    field_simp
  rw [h1, abs_mul, abs_of_pos h, abs_sub_comm]
  have h2 := abs_sub_round (a / step)
  nlinarith [abs_nonneg (a / step - ((round (a / step) : ℤ) : ℝ))]

theorem filter_ne_idem (t : ChargeObject) (l : List ChargeObject) :
    ((l.filter fun c => c.id != t.id).filter fun c => c.id != t.id)
      = l.filter fun c => c.id != t.id := by
  simp [List.filter_filter]

theorem integrateCharge_id (c : ChargeObject) (force : Vector3) (dt damping : ℝ) :
    (integrateCharge c force dt damping).id = c.id := by
  unfold integrateCharge
  split <;> rfl

theorem updateChargeDynamics_getElem (charges : List ChargeObject) (dt k damping : ℝ)
    (i : ℕ) (c : ChargeObject) (hc : charges[i]? = some c) :
    (updateChargeDynamics charges dt k damping)[i]?
      = some (integrateCharge c
          (if c.isFixed then 0 else (calculateNetForce c charges k).vector) dt damping) := by
  simp [updateChargeDynamics, hc]

theorem updateChargeDynamics_fixed (charges : List ChargeObject) (dt k damping : ℝ)
    (i : ℕ) (c : ChargeObject) (hc : charges[i]? = some c) (hf : c.isFixed = true) :
    (updateChargeDynamics charges dt k damping)[i]? = some c := by
  rw [updateChargeDynamics_getElem charges dt k damping i c hc]
  simp [integrateCharge, hf]

theorem foldSteps_fixed (steps : List (ℝ × ℝ × ℝ)) :
    ∀ (charges : List ChargeObject) (i : ℕ) (c : ChargeObject),
      charges[i]? = some c → c.isFixed = true →
      (steps.foldl (fun cs s => updateChargeDynamics cs s.1 s.2.1 s.2.2) charges)[i]? = some c := by
  induction steps with
  | nil => intro charges i c hc _; simpa using hc
  | cons s rest ih =>
      intro charges i c hc hf
      simp only [List.foldl_cons]
      exact ih _ i c (updateChargeDynamics_fixed charges s.1 s.2.1 s.2.2 i c hc hf) hf

theorem Vector3.sub_zero (v : Vector3) : v - 0 = v := by
  ext <;> simp

theorem pointField_mk_x (a k q : ℝ) (ha : 0 < a) :
    pointField ⟨a, 0, 0⟩ k q = ⟨k * q / (a * a), 0, 0⟩ := by
  have hl : Vector3.length ⟨a, 0, 0⟩ = a := by rw [Vector3.length_mk_x, abs_of_pos ha]
  unfold pointField Vector3.normalize Vector3.divideScalar
  rw [hl, if_neg (ne_of_gt ha)]
  ext <;> simp
  field_simp

/-- The three general branches of the `SPHERE_CONDUCTING` case. -/
theorem conducting_inside (p : Vector3) (c : ChargeObject) (k : ℝ)
    (ht : c.type = ChargeType.SPHERE_CONDUCTING)
    (h05 : 0.05 ≤ Vector3.length (p - c.position))
    (hin : Vector3.length (p - c.position) < c.radius) :
    getFieldFromObject p c k = 0 ∧ potentialFromObject p c k = k * c.q / c.radius := by
  constructor
  · simp [getFieldFromObject, ht, not_lt.mpr h05, not_le.mpr hin]
  · simp [potentialFromObject, Vector3.distanceTo, ht, not_lt.mpr h05, not_le.mpr hin]

theorem conducting_outside (p : Vector3) (c : ChargeObject) (k : ℝ)
    (ht : c.type = ChargeType.SPHERE_CONDUCTING)
    (h05 : 0.05 ≤ Vector3.length (p - c.position))
    (hout : c.radius ≤ Vector3.length (p - c.position)) :
    getFieldFromObject p c k = pointField (p - c.position) k c.q
    ∧ potentialFromObject p c k = k * c.q / Vector3.length (p - c.position) := by
  constructor
  · simp [getFieldFromObject, ht, not_lt.mpr h05, hout]
  · simp [potentialFromObject, Vector3.distanceTo, ht, not_lt.mpr h05, hout]

theorem nonconducting_inside (p : Vector3) (c : ChargeObject) (k : ℝ)
    (ht : c.type = ChargeType.SPHERE_NON_CONDUCTING)
    (h05 : 0.05 ≤ Vector3.length (p - c.position))
    (hin : Vector3.length (p - c.position) < c.radius) :
    getFieldFromObject p c k
      = (p - c.position).normalize.multiplyScalar
          ((k * c.q * Vector3.length (p - c.position))
            / (c.radius * c.radius * c.radius))
    ∧ potentialFromObject p c k
      = k * c.q / (2 * c.radius)
          * (3 - Vector3.length (p - c.position) * Vector3.length (p - c.position)
              / (c.radius * c.radius)) := by
  constructor
  · simp [getFieldFromObject, ht, not_lt.mpr h05, not_le.mpr hin]
  · simp [potentialFromObject, Vector3.distanceTo, ht, not_lt.mpr h05, not_le.mpr hin]

theorem nonconducting_outside (p : Vector3) (c : ChargeObject) (k : ℝ)
    (ht : c.type = ChargeType.SPHERE_NON_CONDUCTING)
    (h05 : 0.05 ≤ Vector3.length (p - c.position))
    (hout : c.radius ≤ Vector3.length (p - c.position)) :
    getFieldFromObject p c k = pointField (p - c.position) k c.q
    ∧ potentialFromObject p c k = k * c.q / Vector3.length (p - c.position) := by
  constructor
  · simp [getFieldFromObject, ht, not_lt.mpr h05, hout]
  · simp [potentialFromObject, Vector3.distanceTo, ht, not_lt.mpr h05, hout]

/-- The conducting sphere of the spec's shell-theorem test: `q = 5`, `R = 1`. -/
def sphereCond : ChargeObject := ⟨"sc", ChargeType.SPHERE_CONDUCTING, 0, 5, 1, none, none, false⟩

/-- The non-conducting sphere of the spec's linearity test: `q = 5`, `R = 1`. -/
def sphereNon : ChargeObject :=
  ⟨"sn", ChargeType.SPHERE_NON_CONDUCTING, 0, 5, 1, none, none, false⟩

/-- A conducting sphere whose radius `0.01` is smaller than the ε guard. -/
def sphereCondTiny : ChargeObject :=
  ⟨"st", ChargeType.SPHERE_CONDUCTING, 0, 5, 0.01, none, none, true⟩

/-- A non-conducting sphere whose radius `0.01` is smaller than the ε guard. -/
def sphereNonTiny : ChargeObject :=
  ⟨"nt", ChargeType.SPHERE_NON_CONDUCTING, 0, 5, 0.01, none, none, true⟩

/-! ## Claim theorems -/

/-- The ε = 0.05 guard of `getFieldFromObject`. -/
theorem field_guard_zero (p : Vector3) (c : ChargeObject) (k : ℝ)
    (h : Vector3.length (p - c.position) < 0.05) : getFieldFromObject p c k = 0 := by
  simp [getFieldFromObject, h]

/-- The ε = 0.05 guard of the per-source potential summand. -/
theorem potential_guard_zero (p : Vector3) (c : ChargeObject) (k : ℝ)
    (h : Vector3.length (p - c.position) < 0.05) : potentialFromObject p c k = 0 := by
  simp [potentialFromObject, Vector3.distanceTo, h]

theorem normalize_mk_x (a : ℝ) (ha : 0 < a) : Vector3.normalize ⟨a, 0, 0⟩ = ⟨1, 0, 0⟩ := by
  have hl : Vector3.length ⟨a, 0, 0⟩ = a := by rw [Vector3.length_mk_x, abs_of_pos ha]
  unfold Vector3.normalize Vector3.divideScalar
  rw [hl, if_neg (ne_of_gt ha)]
  ext <;> simp
  field_simp

/-- C1 (amended): every source's field and potential contribution vanishes
when the probe is within `0.05` of the source position; a Ring field sample
contributes its Point-law term exactly when its distance to the probe exceeds
`0.1` (not `0.05`), and a Ring potential sample contributes exactly when its
distance exceeds `0.05` (strictly). -/
theorem C1_singularity_guards :
    (∀ (p : Vector3) (c : ChargeObject) (k : ℝ),
        Vector3.length (p - c.position) < 0.05 →
        getFieldFromObject p c k = 0 ∧ potentialFromObject p c k = 0)
    ∧ (∀ (k dQ : ℝ) (r : Vector3),
        (0.1 < r.length → ringSampleField k dQ r = pointField r k dQ)
        ∧ (r.length ≤ 0.1 → ringSampleField k dQ r = 0))
    ∧ (∀ k dQ d : ℝ,
        (0.05 < d → ringSamplePotential k dQ d = k * dQ / d)
        ∧ (d ≤ 0.05 → ringSamplePotential k dQ d = 0)) := by
  refine ⟨?_, ?_, ?_⟩
  · intro p c k h
    exact ⟨field_guard_zero p c k h, potential_guard_zero p c k h⟩
  · intro k dQ r
    constructor
    · intro h
      rw [ringSampleField, if_pos h]
      rfl
    · intro h
      rw [ringSampleField, if_neg (not_lt.mpr h)]
  · intro k dQ d
    constructor
    · intro h
      rw [ringSamplePotential, if_pos h]
    · intro h
      rw [ringSamplePotential, if_neg (not_lt.mpr h)]

/-- C1 witness: the guards evaluated at concrete inputs on both sides of each
threshold. -/
theorem C1_singularity_guards_witness :
    getFieldFromObject ⟨0.01, 0, 0⟩ cFree 1 = 0
    ∧ potentialFromObject ⟨0.01, 0, 0⟩ cFree 1 = 0
    ∧ ringSampleField 1 1 ⟨0.2, 0, 0⟩ = pointField ⟨0.2, 0, 0⟩ 1 1
    ∧ ringSamplePotential 1 1 0.04 = 0 := by
  have hlen : Vector3.length ((⟨0.01, 0, 0⟩ : Vector3) - cFree.position) = 0.01 := by
    rw [show (⟨0.01, 0, 0⟩ : Vector3) - cFree.position = ⟨0.01, 0, 0⟩ from Vector3.sub_zero _,
      Vector3.length_mk_x]
    norm_num
  have h1 := C1_singularity_guards.1 ⟨0.01, 0, 0⟩ cFree 1 (by rw [hlen]; norm_num)
  refine ⟨h1.1, h1.2, ?_, (C1_singularity_guards.2.2 1 1 0.04).2 (by norm_num)⟩
  refine (C1_singularity_guards.2.1 1 1 ⟨0.2, 0, 0⟩).1 ?_
  rw [Vector3.length_mk_x, abs_of_pos (by norm_num : (0 : ℝ) < 0.2)]
  norm_num

/-- C1 counterexample: a Ring field sample at distance `0.08 ≥ 0.05` from the
probe contributes the zero vector, although its Point-law term is nonzero —
the field loop's per-sample guard is `dR > 0.1`, not the claimed ε = `0.05`. -/
theorem C1_counterexample :
    0.05 ≤ Vector3.length ⟨0.08, 0, 0⟩
    ∧ ringSampleField 1 1 ⟨0.08, 0, 0⟩ = 0
    ∧ pointField ⟨0.08, 0, 0⟩ 1 1 ≠ 0 := by
  have hlen : Vector3.length (⟨0.08, 0, 0⟩ : Vector3) = 0.08 := by
    rw [Vector3.length_mk_x]; norm_num
  refine ⟨by rw [hlen]; norm_num, ?_, ?_⟩
  · rw [ringSampleField, if_neg]
    rw [hlen]
    norm_num
  · rw [pointField_mk_x 0.08 1 1 (by norm_num)]
    intro hc
    have hx := congrArg Vector3.x hc
    norm_num at hx

/-- C3 (amended): shell theorem for the conducting sphere — zero field and
constant potential `k·q/R` strictly inside (at guard-passing distances), the
Point law outside (at guard-passing distances `d ≥ 0.05`), and the spec's
concrete instance `q = 5, R = 1, k = 1` with zero field at `d = 0.5` and
field `(1.25, 0, 0)` of magnitude `1.25` along the outward radial unit vector
at `d = 2`. -/
theorem C3_shell_theorem :
    (∀ (p : Vector3) (c : ChargeObject) (k : ℝ), c.type = ChargeType.SPHERE_CONDUCTING →
        0.05 ≤ Vector3.length (p - c.position) →
        (Vector3.length (p - c.position) < c.radius →
            getFieldFromObject p c k = 0
            ∧ potentialFromObject p c k = k * c.q / c.radius)
        ∧ (c.radius ≤ Vector3.length (p - c.position) →
            getFieldFromObject p c k = pointField (p - c.position) k c.q
            ∧ potentialFromObject p c k = k * c.q / Vector3.length (p - c.position)))
    ∧ getFieldFromObject ⟨0.5, 0, 0⟩ sphereCond 1 = 0
    ∧ getFieldFromObject ⟨2, 0, 0⟩ sphereCond 1 = (Vector3.normalize ⟨2, 0, 0⟩).multiplyScalar 1.25
    ∧ getFieldFromObject ⟨2, 0, 0⟩ sphereCond 1 = ⟨1.25, 0, 0⟩
    ∧ Vector3.length (getFieldFromObject ⟨2, 0, 0⟩ sphereCond 1) = 1.25 := by
  have hl05 : Vector3.length ((⟨0.5, 0, 0⟩ : Vector3) - sphereCond.position) = 0.5 := by
    rw [show (⟨0.5, 0, 0⟩ : Vector3) - sphereCond.position = ⟨0.5, 0, 0⟩ from Vector3.sub_zero _,
      Vector3.length_mk_x]
    norm_num
  have hl2 : Vector3.length ((⟨2, 0, 0⟩ : Vector3) - sphereCond.position) = 2 := by
    rw [show (⟨2, 0, 0⟩ : Vector3) - sphereCond.position = ⟨2, 0, 0⟩ from Vector3.sub_zero _,
      Vector3.length_mk_x]
    norm_num
  have hin := (conducting_inside ⟨0.5, 0, 0⟩ sphereCond 1 rfl (by rw [hl05]; norm_num)
    (by rw [hl05]; show (0.5 : ℝ) < 1; norm_num)).1
  have hout := (conducting_outside ⟨2, 0, 0⟩ sphereCond 1 rfl (by rw [hl2]; norm_num)
    (by rw [hl2]; show (1 : ℝ) ≤ 2; norm_num)).1
  have hout2 : getFieldFromObject ⟨2, 0, 0⟩ sphereCond 1 = ⟨1.25, 0, 0⟩ := by
    rw [hout, show (⟨2, 0, 0⟩ : Vector3) - sphereCond.position = ⟨2, 0, 0⟩ from Vector3.sub_zero _,
      show sphereCond.q = 5 from rfl, pointField_mk_x 2 1 5 (by norm_num)]
    norm_num
  refine ⟨?_, hin, ?_, hout2, ?_⟩
  · intro p c k ht h05
    exact ⟨fun hi => conducting_inside p c k ht h05 hi,
      fun ho => conducting_outside p c k ht h05 ho⟩
  · rw [hout2, normalize_mk_x 2 (by norm_num)]
    ext <;> simp
  · rw [hout2, Vector3.length_mk_x]
    norm_num

/-- C3 witness: the general branches of the shell theorem applied to the
concrete sphere `q = 5, R = 1` at `d = 0.5` (inside) and `d = 2` (outside). -/
theorem C3_shell_theorem_witness :
    (getFieldFromObject ⟨0.5, 0, 0⟩ sphereCond 1 = 0
      ∧ potentialFromObject ⟨0.5, 0, 0⟩ sphereCond 1 = 1 * sphereCond.q / sphereCond.radius)
    ∧ potentialFromObject ⟨2, 0, 0⟩ sphereCond 1
        = 1 * sphereCond.q / Vector3.length ((⟨2, 0, 0⟩ : Vector3) - sphereCond.position) := by
  have hl05 : Vector3.length ((⟨0.5, 0, 0⟩ : Vector3) - sphereCond.position) = 0.5 := by
    rw [show (⟨0.5, 0, 0⟩ : Vector3) - sphereCond.position = ⟨0.5, 0, 0⟩ from Vector3.sub_zero _,
      Vector3.length_mk_x]
    norm_num
  have hl2 : Vector3.length ((⟨2, 0, 0⟩ : Vector3) - sphereCond.position) = 2 := by
    rw [show (⟨2, 0, 0⟩ : Vector3) - sphereCond.position = ⟨2, 0, 0⟩ from Vector3.sub_zero _,
      Vector3.length_mk_x]
    norm_num
  exact ⟨(C3_shell_theorem.1 ⟨0.5, 0, 0⟩ sphereCond 1 rfl (by rw [hl05]; norm_num)).1
      (by rw [hl05]; show (0.5 : ℝ) < 1; norm_num),
    ((C3_shell_theorem.1 ⟨2, 0, 0⟩ sphereCond 1 rfl (by rw [hl2]; norm_num)).2
      (by rw [hl2]; show (1 : ℝ) ≤ 2; norm_num)).2⟩

/-- C3 counterexample: for a conducting sphere of radius `0.01`, the probe at
distance `0.03 ≥ R` falls under the ε = `0.05` guard, so field and potential
are zero rather than the claimed Point-law values. -/
theorem C3_counterexample :
    sphereCondTiny.radius ≤ Vector3.length ((⟨0.03, 0, 0⟩ : Vector3) - sphereCondTiny.position)
    ∧ getFieldFromObject ⟨0.03, 0, 0⟩ sphereCondTiny 1 = 0
    ∧ pointField ((⟨0.03, 0, 0⟩ : Vector3) - sphereCondTiny.position) 1 sphereCondTiny.q ≠ 0
    ∧ potentialFromObject ⟨0.03, 0, 0⟩ sphereCondTiny 1 = 0
    ∧ 1 * sphereCondTiny.q / Vector3.length ((⟨0.03, 0, 0⟩ : Vector3) - sphereCondTiny.position)
        ≠ 0 := by
  have hsub : (⟨0.03, 0, 0⟩ : Vector3) - sphereCondTiny.position = ⟨0.03, 0, 0⟩ :=
    Vector3.sub_zero _
  have hlen : Vector3.length ((⟨0.03, 0, 0⟩ : Vector3) - sphereCondTiny.position) = 0.03 := by
    rw [hsub, Vector3.length_mk_x]; norm_num
  refine ⟨by rw [hlen]; show (0.01 : ℝ) ≤ 0.03; norm_num,
    field_guard_zero ⟨0.03, 0, 0⟩ sphereCondTiny 1 (by rw [hlen]; norm_num), ?_,
    potential_guard_zero ⟨0.03, 0, 0⟩ sphereCondTiny 1 (by rw [hlen]; norm_num), ?_⟩
  · rw [hsub, show sphereCondTiny.q = 5 from rfl, pointField_mk_x 0.03 1 5 (by norm_num)]
    intro hc
    have hx := congrArg Vector3.x hc
    norm_num at hx
  · rw [hlen, show sphereCondTiny.q = 5 from rfl]
    norm_num

/-- C4 (amended): uniform non-conducting sphere — inside (at guard-passing
distances) the field is `(k·q·d/R³)·r̂` and the potential `(k·q/2R)·(3 − d²/R²)`;
outside (at guard-passing distances `d ≥ 0.05`) both follow the Point law; the
field is continuous at the boundary `d = R`; and in the spec's concrete
instance `q = 5, R = 1, k = 1` the field is `(2.5, 0, 0)` at `d = 0.5` and
`(5, 0, 0)` at `d = 1`. -/
theorem C4_uniform_sphere :
    (∀ (p : Vector3) (c : ChargeObject) (k : ℝ), c.type = ChargeType.SPHERE_NON_CONDUCTING →
        0.05 ≤ Vector3.length (p - c.position) →
        (Vector3.length (p - c.position) < c.radius →
            getFieldFromObject p c k
              = (p - c.position).normalize.multiplyScalar
                  ((k * c.q * Vector3.length (p - c.position))
                    / (c.radius * c.radius * c.radius))
            ∧ potentialFromObject p c k
              = k * c.q / (2 * c.radius)
                  * (3 - Vector3.length (p - c.position) * Vector3.length (p - c.position)
                      / (c.radius * c.radius)))
        ∧ (c.radius ≤ Vector3.length (p - c.position) →
            getFieldFromObject p c k = pointField (p - c.position) k c.q
            ∧ potentialFromObject p c k = k * c.q / Vector3.length (p - c.position)))
    ∧ (∀ (p : Vector3) (c : ChargeObject) (k : ℝ), c.type = ChargeType.SPHERE_NON_CONDUCTING →
        0.05 ≤ c.radius → Vector3.length (p - c.position) = c.radius →
        getFieldFromObject p c k
          = (p - c.position).normalize.multiplyScalar
              ((k * c.q * Vector3.length (p - c.position))
                / (c.radius * c.radius * c.radius)))
    ∧ getFieldFromObject ⟨0.5, 0, 0⟩ sphereNon 1 = ⟨2.5, 0, 0⟩
    ∧ Vector3.length (getFieldFromObject ⟨0.5, 0, 0⟩ sphereNon 1) = 2.5
    ∧ getFieldFromObject ⟨1, 0, 0⟩ sphereNon 1 = ⟨5, 0, 0⟩
    ∧ Vector3.length (getFieldFromObject ⟨1, 0, 0⟩ sphereNon 1) = 5 := by
  have hl05 : Vector3.length ((⟨0.5, 0, 0⟩ : Vector3) - sphereNon.position) = 0.5 := by
    rw [show (⟨0.5, 0, 0⟩ : Vector3) - sphereNon.position = ⟨0.5, 0, 0⟩ from Vector3.sub_zero _,
      Vector3.length_mk_x]
    norm_num
  have hl1 : Vector3.length ((⟨1, 0, 0⟩ : Vector3) - sphereNon.position) = 1 := by
    rw [show (⟨1, 0, 0⟩ : Vector3) - sphereNon.position = ⟨1, 0, 0⟩ from Vector3.sub_zero _,
      Vector3.length_mk_x]
    norm_num
  have hin : getFieldFromObject ⟨0.5, 0, 0⟩ sphereNon 1 = ⟨2.5, 0, 0⟩ := by
    rw [(nonconducting_inside ⟨0.5, 0, 0⟩ sphereNon 1 rfl (by rw [hl05]; norm_num)
        (by rw [hl05]; show (0.5 : ℝ) < 1; norm_num)).1, hl05,
      show (⟨0.5, 0, 0⟩ : Vector3) - sphereNon.position = ⟨0.5, 0, 0⟩ from Vector3.sub_zero _,
      normalize_mk_x 0.5 (by norm_num)]
    ext <;> norm_num [show sphereNon.q = 5 from rfl, show sphereNon.radius = 1 from rfl]
  have hout : getFieldFromObject ⟨1, 0, 0⟩ sphereNon 1 = ⟨5, 0, 0⟩ := by
    rw [(nonconducting_outside ⟨1, 0, 0⟩ sphereNon 1 rfl (by rw [hl1]; norm_num)
        (by rw [hl1]; show sphereNon.radius ≤ (1 : ℝ); norm_num [sphereNon])).1,
      show (⟨1, 0, 0⟩ : Vector3) - sphereNon.position = ⟨1, 0, 0⟩ from Vector3.sub_zero _,
      show sphereNon.q = 5 from rfl, pointField_mk_x 1 1 5 (by norm_num)]
    norm_num
  refine ⟨?_, ?_, hin, by rw [hin, Vector3.length_mk_x]; norm_num,
    hout, by rw [hout, Vector3.length_mk_x]; norm_num⟩
  · intro p c k ht h05
    exact ⟨fun hi => nonconducting_inside p c k ht h05 hi,
      fun ho => nonconducting_outside p c k ht h05 ho⟩
  · intro p c k ht hr hb
    have hR : (0 : ℝ) < c.radius := lt_of_lt_of_le (by norm_num) hr
    rw [(nonconducting_outside p c k ht (by rw [hb]; exact hr) (le_of_eq hb.symm)).1,
      pointField, hb]
    congr 1
    field_simp
    ring

/-- C4 witness: the general inside/outside branches and the boundary
continuity applied to the concrete sphere `q = 5, R = 1`. -/
theorem C4_uniform_sphere_witness :
    potentialFromObject ⟨0.5, 0, 0⟩ sphereNon 1
      = 1 * sphereNon.q / (2 * sphereNon.radius)
          * (3 - Vector3.length ((⟨0.5, 0, 0⟩ : Vector3) - sphereNon.position)
              * Vector3.length ((⟨0.5, 0, 0⟩ : Vector3) - sphereNon.position)
              / (sphereNon.radius * sphereNon.radius))
    ∧ potentialFromObject ⟨1, 0, 0⟩ sphereNon 1
        = 1 * sphereNon.q / Vector3.length ((⟨1, 0, 0⟩ : Vector3) - sphereNon.position)
    ∧ getFieldFromObject ⟨1, 0, 0⟩ sphereNon 1
        = ((⟨1, 0, 0⟩ : Vector3) - sphereNon.position).normalize.multiplyScalar
            ((1 * sphereNon.q * Vector3.length ((⟨1, 0, 0⟩ : Vector3) - sphereNon.position))
              / (sphereNon.radius * sphereNon.radius * sphereNon.radius)) := by
  have hl05 : Vector3.length ((⟨0.5, 0, 0⟩ : Vector3) - sphereNon.position) = 0.5 := by
    rw [show (⟨0.5, 0, 0⟩ : Vector3) - sphereNon.position = ⟨0.5, 0, 0⟩ from Vector3.sub_zero _,
      Vector3.length_mk_x]
    norm_num
  have hl1 : Vector3.length ((⟨1, 0, 0⟩ : Vector3) - sphereNon.position) = 1 := by
    rw [show (⟨1, 0, 0⟩ : Vector3) - sphereNon.position = ⟨1, 0, 0⟩ from Vector3.sub_zero _,
      Vector3.length_mk_x]
    norm_num
  exact ⟨((C4_uniform_sphere.1 ⟨0.5, 0, 0⟩ sphereNon 1 rfl (by rw [hl05]; norm_num)).1
      (by rw [hl05]; show (0.5 : ℝ) < 1; norm_num)).2,
    ((C4_uniform_sphere.1 ⟨1, 0, 0⟩ sphereNon 1 rfl (by rw [hl1]; norm_num)).2
      (by rw [hl1]; show sphereNon.radius ≤ (1 : ℝ); norm_num [sphereNon])).2,
    C4_uniform_sphere.2.1 ⟨1, 0, 0⟩ sphereNon 1 rfl
      (by show (0.05 : ℝ) ≤ 1; norm_num) (by rw [hl1]; norm_num [sphereNon])⟩

/-- C4 counterexample: for a non-conducting sphere of radius `0.01`, the probe
at distance `0.03 ≥ R` falls under the ε = `0.05` guard, so field and potential
are zero rather than the claimed Point-law values. -/
theorem C4_counterexample :
    sphereNonTiny.radius ≤ Vector3.length ((⟨0.03, 0, 0⟩ : Vector3) - sphereNonTiny.position)
    ∧ getFieldFromObject ⟨0.03, 0, 0⟩ sphereNonTiny 1 = 0
    ∧ pointField ((⟨0.03, 0, 0⟩ : Vector3) - sphereNonTiny.position) 1 sphereNonTiny.q ≠ 0
    ∧ potentialFromObject ⟨0.03, 0, 0⟩ sphereNonTiny 1 = 0
    ∧ 1 * sphereNonTiny.q / Vector3.length ((⟨0.03, 0, 0⟩ : Vector3) - sphereNonTiny.position)
        ≠ 0 := by
  have hsub : (⟨0.03, 0, 0⟩ : Vector3) - sphereNonTiny.position = ⟨0.03, 0, 0⟩ :=
    Vector3.sub_zero _
  have hlen : Vector3.length ((⟨0.03, 0, 0⟩ : Vector3) - sphereNonTiny.position) = 0.03 := by
    rw [hsub, Vector3.length_mk_x]; norm_num
  refine ⟨by rw [hlen]; show (0.01 : ℝ) ≤ 0.03; norm_num,
    field_guard_zero ⟨0.03, 0, 0⟩ sphereNonTiny 1 (by rw [hlen]; norm_num), ?_,
    potential_guard_zero ⟨0.03, 0, 0⟩ sphereNonTiny 1 (by rw [hlen]; norm_num), ?_⟩
  · rw [hsub, show sphereNonTiny.q = 5 from rfl, pointField_mk_x 0.03 1 5 (by norm_num)]
    intro hc
    have hx := congrArg Vector3.x hc
    norm_num at hx
  · rw [hlen, show sphereNonTiny.q = 5 from rfl]
    norm_num

/-- C5: the total field returned by `calculateElectricField` is the vector sum of
the per-source contributions of `getFieldFromObject`, its magnitude is the
Euclidean norm of that sum, and `calculatePotential` is the scalar sum of the
per-source potential contributions; no source is excluded. -/
theorem C5_superposition (p : Vector3) (charges : List ChargeObject) (k : ℝ) :
    (calculateElectricField p charges k).vector
        = (charges.map fun c => getFieldFromObject p c k).sum
    ∧ (calculateElectricField p charges k).magnitude
        = Vector3.length (charges.map fun c => getFieldFromObject p c k).sum
    ∧ calculatePotential p charges k
        = (charges.map fun c => potentialFromObject p c k).sum := by
  refine ⟨?_, ?_, ?_⟩ <;>
    simp [calculateElectricField, calculatePotential, foldl_add_eq_sum]

/-- C2: one integrator step computes every force from the unmodified pre-step
collection, preserves the size and order of the collection (each slot keeps
its source's identity), and maps every non-fixed source to
`v' = (v + (F/mass)·dt)·damping`, `p' = position + v'·dt`, with the mass
defaulting to `1.0` when absent and the velocity to the zero vector when
absent. -/
theorem C2_step (charges : List ChargeObject) (dt k damping : ℝ) :
    (updateChargeDynamics charges dt k damping).length = charges.length
    ∧ (∀ (i : ℕ) (c : ChargeObject), charges[i]? = some c →
        ∃ u, (updateChargeDynamics charges dt k damping)[i]? = some u ∧ u.id = c.id)
    ∧ (∀ (i : ℕ) (c : ChargeObject), charges[i]? = some c → c.isFixed = false →
        (updateChargeDynamics charges dt k damping)[i]?
          = some { c with
              velocity := some ((c.velocity.getD 0
                + ((calculateNetForce c charges k).vector.divideScalar
                    (effectiveMass c.mass)).multiplyScalar dt).multiplyScalar damping),
              position := c.position
                + (((c.velocity.getD 0
                  + ((calculateNetForce c charges k).vector.divideScalar
                      (effectiveMass c.mass)).multiplyScalar dt).multiplyScalar
                        damping).multiplyScalar dt) })
    ∧ (∀ mo : Option ℝ, mo = none → effectiveMass mo = 1)
    ∧ ∀ vo : Option Vector3, vo = none → vo.getD 0 = 0 := by
  refine ⟨by simp [updateChargeDynamics], ?_, ?_, ?_, ?_⟩
  · intro i c hc
    exact ⟨_, updateChargeDynamics_getElem charges dt k damping i c hc,
      integrateCharge_id c _ dt damping⟩
  · intro i c hc hfix
    rw [updateChargeDynamics_getElem charges dt k damping i c hc]
    simp [integrateCharge, hfix]
  · intro mo h
    rw [h]
    rfl
  · intro vo h
    rw [h]
    rfl

/-- C2 witness: one step on a concrete one-charge collection. -/
theorem C2_step_witness :
    (updateChargeDynamics [cFree] 1 1 1).length = 1
    ∧ (∃ u, (updateChargeDynamics [cFree] 1 1 1)[0]? = some u ∧ u.id = cFree.id)
    ∧ (updateChargeDynamics [cFree] 1 1 1)[0]?
        = some { cFree with
            velocity := some ((cFree.velocity.getD 0
              + ((calculateNetForce cFree [cFree] 1).vector.divideScalar
                  (effectiveMass cFree.mass)).multiplyScalar 1).multiplyScalar 1),
            position := cFree.position
              + (((cFree.velocity.getD 0
                + ((calculateNetForce cFree [cFree] 1).vector.divideScalar
                    (effectiveMass cFree.mass)).multiplyScalar 1).multiplyScalar
                      1).multiplyScalar 1) } :=
  ⟨(C2_step [cFree] 1 1 1).1, (C2_step [cFree] 1 1 1).2.1 0 cFree rfl,
    (C2_step [cFree] 1 1 1).2.2.1 0 cFree rfl rfl⟩

/-- C7: a fixed source is returned bit-for-bit unchanged (same position and
velocity) by one step and by any sequence of steps, while every non-fixed
source is integrated under the force computed from the full pre-step
collection — which still contains the fixed sources. -/
theorem C7_fixed_invariance (charges : List ChargeObject) (i : ℕ) (c : ChargeObject)
    (hc : charges[i]? = some c) (hf : c.isFixed = true) :
    (∀ dt k damping, (updateChargeDynamics charges dt k damping)[i]? = some c)
    ∧ (∀ steps : List (ℝ × ℝ × ℝ),
        (steps.foldl (fun cs s => updateChargeDynamics cs s.1 s.2.1 s.2.2) charges)[i]?
          = some c)
    ∧ ∀ (dt k damping : ℝ) (j : ℕ) (t : ChargeObject), charges[j]? = some t →
        t.isFixed = false →
        (updateChargeDynamics charges dt k damping)[j]?
          = some (integrateCharge t ((calculateNetForce t charges k).vector) dt damping) := by
  refine ⟨fun dt k damping => updateChargeDynamics_fixed charges dt k damping i c hc hf,
    fun steps => foldSteps_fixed steps charges i c hc hf, ?_⟩
  intro dt k damping j t ht htf
  rw [updateChargeDynamics_getElem charges dt k damping j t ht, htf]
  simp

/-- C7 witness: a pinned charge next to a free one over one step and a
two-step sequence. -/
theorem C7_fixed_invariance_witness :
    (updateChargeDynamics [cFixed, cFree] 1 1 1)[0]? = some cFixed
    ∧ ([((1 : ℝ), (1 : ℝ), (1 : ℝ)), ((1 : ℝ), (1 : ℝ), (1 : ℝ))].foldl
        (fun cs s => updateChargeDynamics cs s.1 s.2.1 s.2.2) [cFixed, cFree])[0]?
          = some cFixed
    ∧ (updateChargeDynamics [cFixed, cFree] 1 1 1)[1]?
        = some (integrateCharge cFree ((calculateNetForce cFree [cFixed, cFree] 1).vector) 1 1) :=
  ⟨(C7_fixed_invariance [cFixed, cFree] 0 cFixed rfl rfl).1 1 1 1,
    (C7_fixed_invariance [cFixed, cFree] 0 cFixed rfl rfl).2.1 [(1, 1, 1), (1, 1, 1)],
    (C7_fixed_invariance [cFixed, cFree] 0 cFixed rfl rfl).2.2 1 1 1 1 cFree rfl rfl⟩

/-- C6: `calculateNetForce` only sees the collection with the target's id
removed (so a source never contributes to its own force), and when nothing
else remains the result is the exact zero vector with magnitude the literal
`0` (the early return taken before any field-law call). -/
theorem C6_self_exclusion (target : ChargeObject) (allCharges : List ChargeObject) (k : ℝ) :
    calculateNetForce target allCharges k
      = calculateNetForce target (allCharges.filter fun c => c.id != target.id) k
    ∧ ((allCharges.filter fun c => c.id != target.id) = [] →
        calculateNetForce target allCharges k = ⟨0, 0⟩) := by
  constructor
  · unfold calculateNetForce
    rw [filter_ne_idem]
  · intro h
    unfold calculateNetForce
    rw [h]
    simp

/-- C6 witness: a charge alone in the collection feels exactly zero force. -/
theorem C6_self_exclusion_witness : calculateNetForce cFree [cFree] 1 = ⟨0, 0⟩ :=
  (C6_self_exclusion cFree [cFree] 1).2 (by simp)

/-- C9: `snapToGrid` with positive `step` returns, in each coordinate
independently, an integer multiple of `step` at distance at most `step / 2`
from the input coordinate. -/
theorem C9_snap (p : Vector3) (step : ℝ) (h : 0 < step) :
    ((∃ n : ℤ, (snapToGrid p step).x = (n : ℝ) * step)
      ∧ |(snapToGrid p step).x - p.x| ≤ step / 2)
    ∧ ((∃ n : ℤ, (snapToGrid p step).y = (n : ℝ) * step)
      ∧ |(snapToGrid p step).y - p.y| ≤ step / 2)
    ∧ ((∃ n : ℤ, (snapToGrid p step).z = (n : ℝ) * step)
      ∧ |(snapToGrid p step).z - p.z| ≤ step / 2) :=
  ⟨⟨⟨round (p.x / step), rfl⟩, round_mul_sub_abs_le step p.x h⟩,
   ⟨⟨round (p.y / step), rfl⟩, round_mul_sub_abs_le step p.y h⟩,
   ⟨⟨round (p.z / step), rfl⟩, round_mul_sub_abs_le step p.z h⟩⟩

/-- C9 witness: snapping `(0.3, 0, 0)` to a unit grid. -/
theorem C9_snap_witness :
    ((∃ n : ℤ, (snapToGrid ⟨0.3, 0, 0⟩ 1).x = (n : ℝ) * 1)
      ∧ |(snapToGrid ⟨0.3, 0, 0⟩ 1).x - 0.3| ≤ 1 / 2)
    ∧ ((∃ n : ℤ, (snapToGrid ⟨0.3, 0, 0⟩ 1).y = (n : ℝ) * 1)
      ∧ |(snapToGrid ⟨0.3, 0, 0⟩ 1).y - 0| ≤ 1 / 2)
    ∧ ((∃ n : ℤ, (snapToGrid ⟨0.3, 0, 0⟩ 1).z = (n : ℝ) * 1)
      ∧ |(snapToGrid ⟨0.3, 0, 0⟩ 1).z - 0| ≤ 1 / 2) :=
  C9_snap ⟨0.3, 0, 0⟩ 1 (by norm_num)

/-- C10: the integrator's mass fallback `c.mass || 1.0` uses `1.0` for an
absent mass and for a mass of exactly `0` (so the acceleration never divides
by zero), and uses any nonzero mass — including a negative one — as given;
the velocity update of a non-fixed charge divides the force by exactly this
effective mass. -/
theorem C10_mass_default :
    effectiveMass none = 1 ∧ effectiveMass (some 0) = 1
    ∧ (∀ m : ℝ, m ≠ 0 → effectiveMass (some m) = m)
    ∧ (∀ mo : Option ℝ, effectiveMass mo ≠ 0)
    ∧ ∀ (c : ChargeObject) (force : Vector3) (dt damping : ℝ), c.isFixed = false →
        (integrateCharge c force dt damping).velocity
          = some ((c.velocity.getD 0
              + (force.divideScalar (effectiveMass c.mass)).multiplyScalar dt).multiplyScalar
                damping) := by
  refine ⟨rfl, by simp [effectiveMass], fun m hm => by simp [effectiveMass, hm], ?_, ?_⟩
  · intro mo
    match mo with
    | none => simp [effectiveMass]
    | some m =>
        by_cases hm : m = 0 <;> simp [effectiveMass, hm]
  · intro c force dt damping hfix
    simp [integrateCharge, hfix]

/-- C10 witness: a negative mass is used as given, a nonzero mass is never
zeroed, and the velocity formula holds for a concrete charge of mass `-2`. -/
theorem C10_mass_default_witness :
    effectiveMass (some (-2)) = -2 ∧ effectiveMass (some 5) ≠ 0
    ∧ (integrateCharge cMass ⟨0, 0, 0⟩ 1 1).velocity
        = some ((cMass.velocity.getD 0
            + ((⟨0, 0, 0⟩ : Vector3).divideScalar (effectiveMass cMass.mass)).multiplyScalar
              1).multiplyScalar 1) :=
  ⟨C10_mass_default.2.2.1 (-2) (by norm_num), C10_mass_default.2.2.2.1 (some 5),
   C10_mass_default.2.2.2.2 cMass ⟨0, 0, 0⟩ 1 1 rfl⟩

/-! ## C8: ring field on the symmetry axis -/

theorem Vector3.sub_self (v : Vector3) : v - v = 0 := by
  ext <;> simp

theorem Vector3.length_zero : Vector3.length 0 = 0 := by
  simp [Vector3.length, Real.sqrt_zero]

theorem sampleTheta_add_twenty (i : ℕ) : sampleTheta 40 (20 + i) = sampleTheta 40 i + Real.pi := by
  unfold sampleTheta
  push_cast
  ring

theorem sum_cos_40 : (Finset.range 40).sum (fun i => Real.cos (sampleTheta 40 i)) = 0 := by
  have h2 : (Finset.range 20).sum (fun i => Real.cos (sampleTheta 40 (20 + i)))
      = -(Finset.range 20).sum fun i => Real.cos (sampleTheta 40 i) := by
    rw [← Finset.sum_neg_distrib]
    exact Finset.sum_congr rfl fun i _ => by
      rw [sampleTheta_add_twenty i, Real.cos_add_pi]
  rw [show (40 : ℕ) = 20 + 20 from rfl, Finset.sum_range_add, h2]
  ring

theorem sum_sin_40 : (Finset.range 40).sum (fun i => Real.sin (sampleTheta 40 i)) = 0 := by
  have h2 : (Finset.range 20).sum (fun i => Real.sin (sampleTheta 40 (20 + i)))
      = -(Finset.range 20).sum fun i => Real.sin (sampleTheta 40 i) := by
    rw [← Finset.sum_neg_distrib]
    exact Finset.sum_congr rfl fun i _ => by
      rw [sampleTheta_add_twenty i, Real.sin_add_pi]
  rw [show (40 : ℕ) = 20 + 20 from rfl, Finset.sum_range_add, h2]
  ring

/-- C8: for a Ring source probed on its vertical symmetry axis at height `z`
above the center (with both guards passing: `|z| ≥ 0.05` against the outer
guard, `√(R² + z²) > 0.1` against the per-sample guard), the `N = 40`-sample
discretized field equals the exact on-axis value
`k·q·z / (R² + z²)^(3/2)` along the axis — the sample cosine and sine sums
cancel exactly — and is therefore a fortiori within 1% of it. -/
theorem C8_ring_on_axis (c : ChargeObject) (k z : ℝ) (ht : c.type = ChargeType.RING)
    (hz : 0.05 ≤ |z|) (hD : 0.1 < Real.sqrt (c.radius ^ 2 + z ^ 2)) :
    getFieldFromObject (c.position + ⟨0, z, 0⟩) c k
      = ⟨0, k * c.q * z / Real.sqrt (c.radius ^ 2 + z ^ 2) ^ 3, 0⟩
    ∧ Vector3.length
        (getFieldFromObject (c.position + ⟨0, z, 0⟩) c k
          - ⟨0, k * c.q * z / Real.sqrt (c.radius ^ 2 + z ^ 2) ^ 3, 0⟩)
      ≤ 0.01 * Vector3.length ⟨0, k * c.q * z / Real.sqrt (c.radius ^ 2 + z ^ 2) ^ 3, 0⟩ := by
  have hD0 : (0 : ℝ) < Real.sqrt (c.radius ^ 2 + z ^ 2) := lt_trans (by norm_num) hD
  set D := Real.sqrt (c.radius ^ 2 + z ^ 2) with hDdef
  have hDne : D ≠ 0 := ne_of_gt hD0
  have hpv : (c.position + ⟨0, z, 0⟩) - c.position = (⟨0, z, 0⟩ : Vector3) := by
    ext <;> simp
  have houter : ¬ Vector3.length ((c.position + ⟨0, z, 0⟩) - c.position) < 0.05 := by
    rw [hpv, Vector3.length_mk_y]
    exact not_lt.mpr hz
  have hfield : getFieldFromObject (c.position + ⟨0, z, 0⟩) c k
      = Finset.sum (Finset.range 40) fun i => ringSampleField k (c.q / 40)
          ((c.position + ⟨0, z, 0⟩) - ringSamplePos c 40 i) := by
    simp [getFieldFromObject, houter, ht]
  have hsummand : ∀ i ∈ Finset.range 40,
      ringSampleField k (c.q / 40) ((c.position + ⟨0, z, 0⟩) - ringSamplePos c 40 i)
        = ⟨Real.cos (sampleTheta 40 i) * (-c.radius * (1 / D) * (k * (c.q / 40) / (D * D))),
           z * (1 / D) * (k * (c.q / 40) / (D * D)),
           Real.sin (sampleTheta 40 i) * (-c.radius * (1 / D) * (k * (c.q / 40) / (D * D)))⟩ := by
    intro i _
    have hri : (c.position + ⟨0, z, 0⟩) - ringSamplePos c 40 i
        = ⟨-(Real.cos (sampleTheta 40 i) * c.radius), z,
           -(Real.sin (sampleTheta 40 i) * c.radius)⟩ := by
      ext <;> simp [ringSamplePos]
    have hlen : Vector3.length ((c.position + ⟨0, z, 0⟩) - ringSamplePos c 40 i) = D := by
      rw [hri]
      show Real.sqrt _ = D
      rw [hDdef]
      congr 1
      linear_combination c.radius ^ 2 * Real.sin_sq_add_cos_sq (sampleTheta 40 i)
    rw [ringSampleField, if_pos (by rw [hlen]; exact hD), Vector3.normalize,
      Vector3.divideScalar, hlen, if_neg hDne, hri]
    ext <;> simp [Vector3.multiplyScalar] <;> ring
  have hmain : getFieldFromObject (c.position + ⟨0, z, 0⟩) c k
      = ⟨0, k * c.q * z / D ^ 3, 0⟩ := by
    rw [hfield, Finset.sum_congr rfl hsummand]
    ext
    · rw [Vector3.sum_x]
      show (Finset.range 40).sum (fun i => Real.cos (sampleTheta 40 i)
        * (-c.radius * (1 / D) * (k * (c.q / 40) / (D * D)))) = 0
      rw [← Finset.sum_mul, sum_cos_40, zero_mul]
    · rw [Vector3.sum_y]
      show (Finset.range 40).sum (fun _ => z * (1 / D) * (k * (c.q / 40) / (D * D)))
        = k * c.q * z / D ^ 3
      rw [Finset.sum_const, Finset.card_range, nsmul_eq_mul]
      field_simp
      ring
    · rw [Vector3.sum_z]
      show (Finset.range 40).sum (fun i => Real.sin (sampleTheta 40 i)
        * (-c.radius * (1 / D) * (k * (c.q / 40) / (D * D)))) = 0
      rw [← Finset.sum_mul, sum_sin_40, zero_mul]
  refine ⟨hmain, ?_⟩
  rw [hmain, Vector3.sub_self, Vector3.length_zero]
  exact mul_nonneg (by norm_num) (Vector3.length_nonneg _)

/-- The unit ring of the witness: `q = 1`, `R = 1`, centered at the origin. -/
def ringUnit : ChargeObject := ⟨"r", ChargeType.RING, 0, 1, 1, none, none, false⟩

/-- C8 witness: the discretized field of the unit ring at height `z = 1`
equals the exact on-axis value. -/
theorem C8_ring_on_axis_witness :
    getFieldFromObject (ringUnit.position + ⟨0, 1, 0⟩) ringUnit 1
      = ⟨0, 1 * ringUnit.q * 1 / Real.sqrt (ringUnit.radius ^ 2 + 1 ^ 2) ^ 3, 0⟩ := by
  have hD : (0.1 : ℝ) < Real.sqrt (ringUnit.radius ^ 2 + 1 ^ 2) := by
    have h2 : Real.sqrt 1 ≤ Real.sqrt (ringUnit.radius ^ 2 + 1 ^ 2) :=
      Real.sqrt_le_sqrt (by norm_num [ringUnit])
    rw [Real.sqrt_one] at h2
    exact lt_of_lt_of_le (by norm_num) h2
  exact (C8_ring_on_axis ringUnit 1 1 rfl (by rw [abs_one]; norm_num) hD).1

end Elec

end
